import Mathlib

/-!
Verification of the melodic step-sequencer's pattern store, scale engine,
transport-scheduler note durations and filter-sweep automation, as a shallow
embedding of the TypeScript sources.

Conventions of the embedding:
* JS numbers holding integers (steps, pitches, velocities) are `Int`.
* JS `Math.floor(a / b)` is `Int.fdiv`; the JS `%` operator (sign of the
  dividend, truncated) is `Int.tmod`.
* Times and frequencies handled by the audio layer are `ℚ`.
* React `useState`/`useRef` cells become fields of explicit state records; a
  handler becomes a function from state to state.
-/

/-- Pattern constants from `types/index.ts`. -/
def STEPS_PER_BAR : Int := 16

/-- Total pattern length in steps (16 bars). -/
def TOTAL_STEPS : Int := 256

/-- Default velocity for a newly inserted note. -/
def DEFAULT_VELOCITY : Int := 100

/-- Default length for a newly inserted note. -/
def DEFAULT_NOTE_LENGTH : Int := 1

/-- Maximum number of history snapshots (`MAX_HISTORY` in `usePattern`). -/
def MAX_HISTORY : Nat := 50

/-- The `Note` interface: step/pitch/velocity/length plus accent flag. -/
structure Note where
  step : Int
  pitch : Int
  velocity : Int
  length : Int
  accent : Bool
deriving DecidableEq, Repr

/-- The note inserted by `toggleNote` at an empty position. -/
def defaultNote (step pitch : Int) : Note :=
  { step := step, pitch := pitch, velocity := DEFAULT_VELOCITY,
    length := DEFAULT_NOTE_LENGTH, accent := false }

/-- A scale: display name plus semitone intervals within one octave
(`Scale` in `types`, values in `scales.ts`). -/
structure Scale where
  name : String
  intervals : List Int
deriving DecidableEq, Repr

namespace Scales

/-- Chromatic scale from the `SCALES` table. -/
def chromatic : Scale := ⟨"Chromatic (All Notes)", [0, 1, 2, 3, 4, 5, 6, 7, 8, 9, 10, 11]⟩

/-- Major scale from the `SCALES` table. -/
def major : Scale := ⟨"Major (Ionian)", [0, 2, 4, 5, 7, 9, 11]⟩

/-- Natural minor scale from the `SCALES` table. -/
def minor : Scale := ⟨"Natural Minor (Aeolian)", [0, 2, 3, 5, 7, 8, 10]⟩

/-- Harmonic minor scale from the `SCALES` table. -/
def harmonicMinor : Scale := ⟨"Harmonic Minor", [0, 2, 3, 5, 7, 8, 11]⟩

/-- Melodic minor scale from the `SCALES` table. -/
def melodicMinor : Scale := ⟨"Melodic Minor", [0, 2, 3, 5, 7, 9, 11]⟩

/-- Dorian scale from the `SCALES` table. -/
def dorian : Scale := ⟨"Dorian", [0, 2, 3, 5, 7, 9, 10]⟩

/-- Phrygian scale from the `SCALES` table. -/
def phrygian : Scale := ⟨"Phrygian", [0, 1, 3, 5, 7, 8, 10]⟩

/-- Phrygian dominant scale from the `SCALES` table. -/
def phrygianDominant : Scale := ⟨"Phrygian Dominant", [0, 1, 4, 5, 7, 8, 10]⟩

/-- Lydian scale from the `SCALES` table. -/
def lydian : Scale := ⟨"Lydian", [0, 2, 4, 6, 7, 9, 11]⟩

/-- Mixolydian scale from the `SCALES` table. -/
def mixolydian : Scale := ⟨"Mixolydian", [0, 2, 4, 5, 7, 9, 10]⟩

/-- Whole tone scale from the `SCALES` table. -/
def wholeTone : Scale := ⟨"Whole Tone", [0, 2, 4, 6, 8, 10]⟩

/-- Diminished (half-whole) scale from the `SCALES` table. -/
def diminished : Scale := ⟨"Diminished (Half-Whole)", [0, 1, 3, 4, 6, 7, 9, 10]⟩

/-- Pentatonic major scale from the `SCALES` table. -/
def pentatonicMajor : Scale := ⟨"Pentatonic Major", [0, 2, 4, 7, 9]⟩

/-- Pentatonic minor scale from the `SCALES` table. -/
def pentatonicMinor : Scale := ⟨"Pentatonic Minor", [0, 3, 5, 7, 10]⟩

/-- Blues scale from the `SCALES` table. -/
def blues : Scale := ⟨"Blues", [0, 3, 5, 6, 7, 10]⟩

end Scales

/-- All values of the `SCALES` record, in declaration order. -/
def allScales : List Scale :=
  [Scales.chromatic, Scales.major, Scales.minor, Scales.harmonicMinor,
   Scales.melodicMinor, Scales.dorian, Scales.phrygian, Scales.phrygianDominant,
   Scales.lydian, Scales.mixolydian, Scales.wholeTone, Scales.diminished,
   Scales.pentatonicMajor, Scales.pentatonicMinor, Scales.blues]

/-- Well-formedness every scale of the table enjoys: a nonempty, strictly
increasing interval list inside one octave. -/
def goodScale (s : Scale) : Prop :=
  s.intervals ≠ [] ∧ s.intervals.Pairwise (· < ·) ∧
    ∀ x ∈ s.intervals, 0 ≤ x ∧ x < 12

instance (s : Scale) : Decidable (goodScale s) := by
  unfold goodScale; infer_instance

/-- Embedding of `scaleDegreeToMidi` from `scales.ts`: split the degree into
octave and in-octave index, then add the interval to the root. -/
def scaleDegreeToMidi (degree : Int) (scale : Scale) (rootNote : Int) : Int :=
  let notesPerOctave : Int := scale.intervals.length
  let octave := Int.fdiv degree notesPerOctave
  let degreeInOctave := Int.tmod degree notesPerOctave
  rootNote + octave * 12 + scale.intervals.getD degreeInOctave.toNat 0

/-- Comparison of a candidate distance against the running minimum of the
nearest-interval scan; `none` is the initial `Infinity`. -/
def betterDistance (d : Nat) : Option Nat → Bool
  | none => true
  | some m => d < m

/-- The forward scan of `midiToNearestScaleDegree`: remember the first index
whose distance to `v` strictly improves on the running minimum. -/
def nearestScan (v : Int) : List Int → Nat → Nat → Option Nat → Nat
  | [], _, best, _ => best
  | x :: xs, i, best, md =>
    let d := (x - v).natAbs
    if betterDistance d md then nearestScan v xs (i + 1) i (some d)
    else nearestScan v xs (i + 1) best md

/-- Embedding of `midiToNearestScaleDegree` from `scales.ts`. -/
def midiToNearestScaleDegree (midiNote : Int) (scale : Scale) (rootNote : Int) : Int :=
  let semitones := midiNote - rootNote
  let octave := Int.fdiv semitones 12
  let noteInOctave := Int.tmod (Int.tmod semitones 12 + 12) 12
  octave * (scale.intervals.length : Int) + (nearestScan noteInOctave scale.intervals 0 0 none : Int)

/-- Embedding of `toggleNote` from `usePattern`: JS `findIndex` yields the
first matching index or `-1`; Lean's `findIdx` yields the length when there is
no match, so the JS test `existingIndex >= 0` becomes `findIdx < length`. A
match is removed; otherwise a default-parameter note is appended. -/
def toggleNote (step pitch : Int) (prev : List Note) : List Note :=
  let existingIndex := prev.findIdx (fun n => n.step == step && n.pitch == pitch)
  if existingIndex < prev.length then prev.eraseIdx existingIndex
  else prev ++ [defaultNote step pitch]

/-- Uniqueness invariant of the pattern: no two notes share `(step, pitch)`. -/
def UniqueNotes (l : List Note) : Prop :=
  l.Pairwise (fun a b => ¬(a.step = b.step ∧ a.pitch = b.pitch))

instance (l : List Note) : Decidable (UniqueNotes l) := by
  unfold UniqueNotes; infer_instance

/-- State of `usePattern`'s undo machinery: the current note list, the history
snapshots (`historyRef`) and the cursor (`historyIndexRef`). -/
structure PatternState where
  notes : List Note
  history : List (List Note)
  historyIndex : Nat
deriving DecidableEq, Repr

/-- Initial state: empty notes, history seeded with one empty snapshot. -/
def initPatternState : PatternState :=
  { notes := [], history := [[]], historyIndex := 0 }

/-- Embedding of `pushHistory`: truncate any redo tail, append the given
snapshot, and either drop the oldest entry (history full, cursor untouched) or
move the cursor to the new end. -/
def pushHistory (currentNotes : List Note) (history : List (List Note))
    (index : Nat) : List (List Note) × Nat :=
  let history := if index < history.length - 1 then history.take (index + 1) else history
  let history := history ++ [currentNotes]
  if history.length > MAX_HISTORY then (history.drop 1, index)
  else (history, history.length - 1)

/-- Embedding of `setNotesWithHistory`: push the previous notes onto the
history, then commit the updated notes. -/
def setNotesWithHistory (f : List Note → List Note) (s : PatternState) : PatternState :=
  let next := f s.notes
  let hi := pushHistory s.notes s.history s.historyIndex
  { notes := next, history := hi.1, historyIndex := hi.2 }

/-- Embedding of `undo`: move the cursor back one slot and load that snapshot
(out-of-range reads default to an empty list, which never occurs in reachable
states). -/
def undo (s : PatternState) : PatternState :=
  if 0 < s.historyIndex then
    { s with historyIndex := s.historyIndex - 1,
             notes := s.history.getD (s.historyIndex - 1) [] }
  else s

/-- Embedding of `redo`: move the cursor forward one slot and load that
snapshot. -/
def redo (s : PatternState) : PatternState :=
  if s.historyIndex < s.history.length - 1 then
    { s with historyIndex := s.historyIndex + 1,
             notes := s.history.getD (s.historyIndex + 1) [] }
  else s

/-- Selection range in steps, from `getSelectionSteps` (selection is held in
bars). -/
def getSelectionSteps (selectionStart selectionEnd : Int) : Int × Int :=
  (selectionStart * STEPS_PER_BAR, selectionEnd * STEPS_PER_BAR)

/-- Per-note body of `nudgeLeft`: shift a selected note one step left,
wrapping to the selection's last step. -/
def nudgeLeftNote (startStep endStep : Int) (n : Note) : Note :=
  if startStep ≤ n.step ∧ n.step < endStep then
    let newStep := n.step - 1
    let newStep := if newStep < startStep then endStep - 1 else newStep
    { n with step := newStep }
  else n

/-- Embedding of `nudgeLeft` from `usePattern`. -/
def nudgeLeft (selectionStart selectionEnd : Int) (notes : List Note) : List Note :=
  let ss := getSelectionSteps selectionStart selectionEnd
  let selectionLength := ss.2 - ss.1
  if selectionLength ≤ 0 then notes
  else notes.map (nudgeLeftNote ss.1 ss.2)

/-- Per-note body of `nudgeRight`: shift a selected note one step right,
wrapping to the selection's first step. -/
def nudgeRightNote (startStep endStep : Int) (n : Note) : Note :=
  if startStep ≤ n.step ∧ n.step < endStep then
    let newStep := n.step + 1
    let newStep := if endStep ≤ newStep then startStep else newStep
    { n with step := newStep }
  else n

/-- Embedding of `nudgeRight` from `usePattern`. -/
def nudgeRight (selectionStart selectionEnd : Int) (notes : List Note) : List Note :=
  let ss := getSelectionSteps selectionStart selectionEnd
  let selectionLength := ss.2 - ss.1
  if selectionLength ≤ 0 then notes
  else notes.map (nudgeRightNote ss.1 ss.2)

/-- Per-note body of `transposeUp`: a selected note moves up one degree only
if the new pitch stays at or below `maxPitch`. -/
def transposeUpNote (startStep endStep maxPitch : Int) (n : Note) : Note :=
  if startStep ≤ n.step ∧ n.step < endStep then
    let newPitch := n.pitch + 1
    if newPitch ≤ maxPitch then { n with pitch := newPitch } else n
  else n

/-- Embedding of `transposeUp` from `usePattern`; `maxPitch` is
`scale.intervals.length * 4 - 1` (four octaves). -/
def transposeUp (scale : Scale) (selectionStart selectionEnd : Int)
    (notes : List Note) : List Note :=
  let ss := getSelectionSteps selectionStart selectionEnd
  let maxPitch : Int := (scale.intervals.length : Int) * 4 - 1
  notes.map (transposeUpNote ss.1 ss.2 maxPitch)

/-- Per-note body of `transposeDown`: a selected note moves down one degree
only if the new pitch stays at or above zero — the upper bound is not
checked. -/
def transposeDownNote (startStep endStep : Int) (n : Note) : Note :=
  if startStep ≤ n.step ∧ n.step < endStep then
    let newPitch := n.pitch - 1
    if 0 ≤ newPitch then { n with pitch := newPitch } else n
  else n

/-- Embedding of `transposeDown` from `usePattern`. -/
def transposeDown (selectionStart selectionEnd : Int) (notes : List Note) : List Note :=
  let ss := getSelectionSteps selectionStart selectionEnd
  notes.map (transposeDownNote ss.1 ss.2)

/-- Transposition of one note exactly as the claim describes it: shift by
`delta` when the note is selected and the shifted pitch stays within
`[0, maxPitch]`, otherwise leave the note entirely unchanged. -/
def claimTransposeNote (delta maxPitch startStep endStep : Int) (n : Note) : Note :=
  if startStep ≤ n.step ∧ n.step < endStep ∧
      0 ≤ n.pitch + delta ∧ n.pitch + delta ≤ maxPitch then
    { n with pitch := n.pitch + delta }
  else n

/-- Embedding of `duplicateSelection` from `usePattern` (notes part only; the
selection-extension it also performs does not touch the note set): selected
notes are copied one selection-length to the right, clipped at the pattern
end, and appended without any occupancy check. -/
def duplicateSelection (selectionStart selectionEnd : Int) (notes : List Note) : List Note :=
  let ss := getSelectionSteps selectionStart selectionEnd
  let selectionLength := ss.2 - ss.1
  let selectedNotes := notes.filter (fun n => ss.1 ≤ n.step && n.step < ss.2)
  let duplicatedNotes := (selectedNotes.map
    (fun n => { n with step := n.step + selectionLength })).filter
      (fun n => n.step < TOTAL_STEPS)
  notes ++ duplicatedNotes

/-- Inner body of `loopSelection`'s `forEach`: append a copy of each selected
note at the given offset unless the target cell is already occupied. -/
def loopAppend (currentOffset : Int) (selectedNotes acc : List Note) : List Note :=
  selectedNotes.foldl (fun acc n =>
    let newStep := n.step + currentOffset
    if newStep < TOTAL_STEPS then
      if acc.any (fun existing => existing.step == newStep && existing.pitch == n.pitch) then acc
      else acc ++ [{ n with step := newStep }]
    else acc) acc

/-- The `while` loop of `loopSelection`, fuelled: offsets advance by the
selection length until `startStep + currentOffset` reaches the pattern end.
256 iterations always suffice, since the offset grows by at least one step
per iteration inside a 256-step pattern. -/
def loopFillWhile : Nat → Int → Int → Int → List Note → List Note → List Note
  | 0, _, _, _, _, acc => acc
  | fuel + 1, startStep, selectionLength, currentOffset, selectedNotes, acc =>
    if startStep + currentOffset < TOTAL_STEPS then
      loopFillWhile fuel startStep selectionLength (currentOffset + selectionLength)
        selectedNotes (loopAppend currentOffset selectedNotes acc)
    else acc

/-- Embedding of `loopSelection` from `usePattern`. -/
def loopSelection (selectionStart selectionEnd : Int) (notes : List Note) : List Note :=
  let ss := getSelectionSteps selectionStart selectionEnd
  let selectionLength := ss.2 - ss.1
  if selectionLength ≤ 0 then notes
  else
    let selectedNotes := notes.filter (fun n => ss.1 ≤ n.step && n.step < ss.2)
    loopFillWhile 256 ss.1 selectionLength selectionLength selectedNotes notes

/-- Per-note body of `setScale` from `usePattern`: recover the note's absolute
MIDI pitch under the old scale (the hook inlines the `scaleDegreeToMidi`
computation), then requantize to the nearest degree of the new scale. -/
def setScaleNote (oldScale newScale : Scale) (rootNote : Int) (n : Note) : Note :=
  let notesPerOctave : Int := oldScale.intervals.length
  let octave := Int.fdiv n.pitch notesPerOctave
  let degreeInOctave := Int.tmod n.pitch notesPerOctave
  let midiNote := rootNote + octave * 12 + oldScale.intervals.getD degreeInOctave.toNat 0
  { n with pitch := midiToNearestScaleDegree midiNote newScale rootNote }

/-- Embedding of the note-remapping performed by `setScale` (the active-scale
swap itself carries no note data). -/
def setScaleNotes (oldScale newScale : Scale) (rootNote : Int)
    (notes : List Note) : List Note :=
  notes.map (setScaleNote oldScale newScale rootNote)

/-- Filter type union from `types` (`'lowpass' | 'highpass' | 'bandpass'`). -/
inductive FilterKind
  | lowpass
  | highpass
  | bandpass
deriving DecidableEq, Repr

/-- One scheduled `rampTo` call on the filter's frequency signal: target
value, ramp duration in seconds and start time as an offset in seconds from
the trigger instant. -/
structure Ramp where
  target : ℚ
  duration : ℚ
  startAt : ℚ
deriving DecidableEq, Repr

/-- Audio-engine state touched by `triggerFilterSweep` in `useAudioEngine`:
the filter node (present or not), its enable flag, type and frequency signal
value, the React-mirrored frequency, the `filterSweepActive` flag, the
outstanding ramp schedule, and whether a UI-update timeout is pending. -/
structure EngineState where
  filterPresent : Bool
  filterEnabled : Bool
  filterType : FilterKind
  filterFreq : ℚ
  filterFreqUI : ℚ
  sweepActive : Bool
  ramps : List Ramp
  uiTimerPending : Bool
deriving DecidableEq, Repr

/-- Low bound of the sweep (`lowFreq` in `triggerFilterSweep`). -/
def sweepLowFreq : ℚ := 200

/-- High bound of the sweep (`highFreq` in `triggerFilterSweep`). -/
def sweepHighFreq : ℚ := 8000

/-- Half duration of the sweep in seconds: 8 bars = 32 beats at the current
tempo (`32 * (60 / tempo)` in `triggerFilterSweep`). -/
def halfDuration (tempo : ℚ) : ℚ := 32 * (60 / tempo)

/-- Number of 50 ms UI countdown steps of the whole sweep
(`Math.floor(totalDuration * 1000 / updateInterval)`). -/
def sweepTotalSteps (tempo : ℚ) : Int := ⌊(halfDuration tempo * 2) * 1000 / 50⌋

/-- Time in seconds after which the UI countdown clears `filterSweepActive`:
the countdown ticks every 50 ms and clears the flag on its last step. -/
def sweepUIClearSeconds (tempo : ℚ) : ℚ := (sweepTotalSteps tempo : ℚ) * (50 / 1000)

/-- Embedding of `triggerFilterSweep` from `useAudioEngine`: bail out only if
the filter node is missing; otherwise force the filter on and lowpass, reset
the frequency to the low bound, mark the sweep active, schedule the up ramp
now and the down ramp one half-duration later, and (re)start the UI timeout.
There is no check of `sweepActive`. -/
def triggerFilterSweep (tempo : ℚ) (s : EngineState) : EngineState :=
  if !s.filterPresent then s
  else
    { s with
        filterEnabled := true,
        filterType := FilterKind.lowpass,
        filterFreq := sweepLowFreq,
        filterFreqUI := sweepLowFreq,
        sweepActive := true,
        ramps := s.ramps ++
          [{ target := sweepHighFreq, duration := halfDuration tempo, startAt := 0 },
           { target := sweepLowFreq, duration := halfDuration tempo,
             startAt := halfDuration tempo }],
        uiTimerPending := true }

/-- Seconds denoted by a Tone.js note-value string of the form `X n` at the
given tempo: such a string names a 1/X note, and a whole note spans four
beats, i.e. `240 / tempo` seconds. -/
def toneTimeSeconds (x tempo : ℚ) : ℚ := 240 / tempo / x

/-- Duration handed to the voice by the transport tick callback in
`useAudioEngine`, which builds the string from `note.length * 16`; the
resulting denominator grows with the length. -/
def tickNoteDurationSeconds (length tempo : ℚ) : ℚ :=
  toneTimeSeconds (length * 16) tempo

/-- Duration of one sixteenth note at the given tempo: a quarter of a beat. -/
def sixteenthNoteSeconds (tempo : ℚ) : ℚ := 60 / tempo / 4

/-- Every scale of the `SCALES` table is well formed. -/
theorem allScales_good : ∀ s ∈ allScales, goodScale s := by decide

/-- Once the running minimum is zero the scan never changes its answer. -/
theorem nearestScan_some_zero (v : Int) :
    ∀ (xs : List Int) (i best : Nat), nearestScan v xs i best (some 0) = best := by
  intro xs
  induction xs with
  | nil => intro i best; rfl
  | cons x xs ih =>
    intro i best
    simp only [nearestScan, betterDistance]
    have : ((x - v).natAbs < 0) = False := by simp
    simp [this, ih]

/-- The scan returns the offset of the first element at distance zero, as long
as the running minimum is still positive (or unset). -/
theorem nearestScan_first_zero (v : Int) :
    ∀ (xs : List Int) (k : Nat), k < xs.length →
      (xs.getD k 0 - v).natAbs = 0 →
      (∀ j, j < k → (xs.getD j 0 - v).natAbs ≠ 0) →
      ∀ (i best : Nat) (md : Option Nat), (∀ m, md = some m → 0 < m) →
        nearestScan v xs i best md = i + k := by
  intro xs
  induction xs with
  | nil => intro k hk; simp at hk
  | cons x xs ih =>
    intro k hk h0 hprev i best md hmd
    cases k with
    | zero =>
      simp only [List.getD_cons_zero] at h0
      have hb : betterDistance ((x - v).natAbs) md = true := by
        cases md with
        | none => rfl
        | some m => simp [betterDistance, h0, hmd m rfl]
      simp only [nearestScan]
      rw [h0] at hb
      rw [h0, if_pos hb]
      simpa using nearestScan_some_zero v xs (i + 1) i
    | succ k' =>
      have hx : (x - v).natAbs ≠ 0 := by
        have := hprev 0 (Nat.succ_pos k')
        simpa using this
      have hk' : k' < xs.length := by simpa using hk
      have h0' : (xs.getD k' 0 - v).natAbs = 0 := by simpa using h0
      have hprev' : ∀ j, j < k' → (xs.getD j 0 - v).natAbs ≠ 0 := by
        intro j hj
        have := hprev (j + 1) (by omega)
        simpa using this
      simp only [nearestScan]
      by_cases hb : betterDistance ((x - v).natAbs) md = true
      · rw [if_pos hb]
        have := ih k' hk' h0' hprev' (i + 1) i (some ((x - v).natAbs))
          (by intro m hm; cases hm; omega)
        omega
      · rw [if_neg hb]
        have hmd' : ∀ m, md = some m → 0 < m := hmd
        have := ih k' hk' h0' hprev' (i + 1) best md hmd'
        omega

/-- JS `Math.floor` division agrees with Euclidean division when the divisor
is nonnegative. -/
theorem fdiv_eq_div_of_nonneg (a b : Int) (hb : 0 ≤ b) : a.fdiv b = a / b :=
  Int.fdiv_eq_ediv a hb

/-- JS `%` agrees with Euclidean `%` on nonnegative operands. -/
theorem tmod_eq_mod_of_nonneg (a b : Int) (ha : 0 ≤ a) (hb : 0 ≤ b) : a.tmod b = a % b :=
  Int.tmod_eq_emod ha hb

/-- Round-trip of the scale engine, generic in a well-formed scale: converting
a nonnegative degree to MIDI and back lands on the same degree. -/
theorem roundtrip_of_goodScale (s : Scale) (hgood : goodScale s)
    (root d : Int) (hd : 0 ≤ d) :
    midiToNearestScaleDegree (scaleDegreeToMidi d s root) s root = d := by
  obtain ⟨hne, hsort, hbound⟩ := hgood
  set ivl := s.intervals with hivl
  have hn : 0 < ivl.length := List.length_pos.mpr hne
  set n : Int := (ivl.length : Int) with hnInt
  have hnpos : 0 < n := by rw [hnInt]; exact_mod_cast hn
  -- the in-octave index and octave computed by scaleDegreeToMidi
  have hfdiv : Int.fdiv d n = d / n := fdiv_eq_div_of_nonneg d n (le_of_lt hnpos)
  have htmod : Int.tmod d n = d % n := tmod_eq_mod_of_nonneg d n hd (le_of_lt hnpos)
  set q := d / n with hq
  set r := d % n with hr
  have hr0 : 0 ≤ r := Int.emod_nonneg d (by omega)
  have hrn : r < n := Int.emod_lt_of_pos d hnpos
  have hqnn : 0 ≤ q := Int.ediv_nonneg hd (le_of_lt hnpos)
  have hdqr : d = n * q + r := by
    rw [hq, hr]; rw [Int.add_comm]; exact (Int.emod_add_ediv d n).symm
  have hkn : r.toNat < ivl.length := by
    have : (r.toNat : Int) = r := Int.toNat_of_nonneg hr0
    omega
  set v := ivl.getD r.toNat 0 with hv
  have hvget : v = ivl.get ⟨r.toNat, hkn⟩ := by
    rw [hv]
    simp [List.getD_eq_getElem?_getD, List.getElem?_eq_getElem hkn]
  have hvmem : v ∈ ivl := by rw [hvget]; exact List.get_mem ivl r.toNat hkn
  have hvb : 0 ≤ v ∧ v < 12 := hbound v hvmem
  -- unfold scaleDegreeToMidi
  have hmidi : scaleDegreeToMidi d s root = root + q * 12 + v := by
    simp only [scaleDegreeToMidi, ← hivl, ← hnInt, hfdiv, htmod, ← hq, ← hr, ← hv]
  rw [hmidi]
  -- unfold midiToNearestScaleDegree
  have hsem : root + q * 12 + v - root = q * 12 + v := by ring
  have hsnn : 0 ≤ q * 12 + v := by nlinarith [hvb.1]
  have hfdiv12 : Int.fdiv (q * 12 + v) 12 = (q * 12 + v) / 12 :=
    fdiv_eq_div_of_nonneg _ 12 (by norm_num)
  have hdiv12 : (q * 12 + v) / 12 = q := by omega
  have htmod12 : Int.tmod (q * 12 + v) 12 = (q * 12 + v) % 12 :=
    tmod_eq_mod_of_nonneg _ 12 hsnn (by norm_num)
  have hmod12 : (q * 12 + v) % 12 = v := by omega
  have htmodv : Int.tmod (v + 12) 12 = (v + 12) % 12 :=
    tmod_eq_mod_of_nonneg _ 12 (by omega) (by norm_num)
  have hmodv : (v + 12) % 12 = v := by omega
  -- the scan lands on index r.toNat
  have hscan : nearestScan v ivl 0 0 none = r.toNat := by
    have h0 : (ivl.getD r.toNat 0 - v).natAbs = 0 := by
      rw [← hv]; simp
    have hprev : ∀ j, j < r.toNat → (ivl.getD j 0 - v).natAbs ≠ 0 := by
      intro j hj
      have hjlen : j < ivl.length := lt_trans hj hkn
      have hgetj : ivl.getD j 0 = ivl.get ⟨j, hjlen⟩ := by
        simp [List.getD_eq_getElem?_getD, List.getElem?_eq_getElem hjlen]
      have hlt : ivl.get ⟨j, hjlen⟩ < ivl.get ⟨r.toNat, hkn⟩ := by
        rw [List.pairwise_iff_get] at hsort
        exact hsort ⟨j, hjlen⟩ ⟨r.toNat, hkn⟩ hj
      rw [hgetj, hvget]
      omega
    have := nearestScan_first_zero v ivl r.toNat hkn h0 hprev 0 0 none
      (by intro m hm; cases hm)
    simpa using this
  simp only [midiToNearestScaleDegree]
  rw [← hivl]
  rw [show root + q * 12 + v - root = q * 12 + v from by ring]
  rw [hfdiv12, hdiv12, htmod12, hmod12, htmodv, hmodv, hscan]
  rw [← hnInt, mul_comm q n]
  have hrt : (r.toNat : Int) = r := Int.toNat_of_nonneg hr0
  omega

/-- Claim C6: for every scale in the scale table, every root note and every
degree `d ≥ 0`, `midiToNearestScaleDegree (scaleDegreeToMidi d scale root)
scale root = d`: the degree-to-MIDI conversion round-trips exactly within one
scale. -/
theorem claim_C6_scale_degree_roundtrip (s : Scale) (hs : s ∈ allScales)
    (root d : Int) (hd : 0 ≤ d) :
    midiToNearestScaleDegree (scaleDegreeToMidi d s root) s root = d :=
  roundtrip_of_goodScale s (allScales_good s hs) root d hd

/-- Witness for claim C6: degree 9 of natural minor rooted at A3 (MIDI 57)
round-trips. -/
theorem claim_C6_scale_degree_roundtrip_witness :
    midiToNearestScaleDegree (scaleDegreeToMidi 9 Scales.minor 57) Scales.minor 57 = 9 :=
  claim_C6_scale_degree_roundtrip Scales.minor (by decide) 57 9 (by decide)

/-- Structural recursion equation for `toggleNote`. -/
theorem toggleNote_cons (step pitch : Int) (x : Note) (xs : List Note) :
    toggleNote step pitch (x :: xs) =
      if x.step == step && x.pitch == pitch then xs
      else x :: toggleNote step pitch xs := by
  by_cases hx : (x.step == step && x.pitch == pitch) = true
  · simp [toggleNote, List.findIdx_cons, hx]
  · have hx' : (x.step == step && x.pitch == pitch) = false := by
      rwa [Bool.not_eq_true] at hx
    simp only [toggleNote, List.findIdx_cons, hx', cond_false, Bool.false_eq_true,
      if_false, List.length_cons]
    by_cases hfound : xs.findIdx (fun n => n.step == step && n.pitch == pitch) < xs.length
    · rw [if_pos (by omega), if_pos hfound]
      rfl
    · rw [if_neg (by omega), if_neg hfound]
      rfl

/-- Toggling a position where no note sits appends the default note. -/
theorem toggleNote_no_match (step pitch : Int) (l : List Note)
    (h : ∀ n ∈ l, ¬(n.step = step ∧ n.pitch = pitch)) :
    toggleNote step pitch l = l ++ [defaultNote step pitch] := by
  induction l with
  | nil => rfl
  | cons x xs ih =>
    have hx : (x.step == step && x.pitch == pitch) = false := by
      have := h x (List.mem_cons_self x xs)
      simp only [Bool.and_eq_false_iff, beq_eq_false_iff_ne, ne_eq]
      tauto
    rw [toggleNote_cons, hx]
    simp only [Bool.false_eq_true, if_false, List.cons_append]
    rw [ih (fun n hn => h n (List.mem_cons_of_mem x hn))]

/-- Claim C5 (amended): on a pattern satisfying the uniqueness invariant in
which any note at the toggled `(step, pitch)` carries the default velocity,
length and accent, toggling that position twice returns the original note set
(up to order). A present note with non-default fields is replaced by a
default-valued one instead (see the counterexample). -/
theorem claim_C5_toggle_toggle_perm (step pitch : Int) (l : List Note)
    (huniq : UniqueNotes l)
    (hdef : ∀ n ∈ l, n.step = step → n.pitch = pitch → n = defaultNote step pitch) :
    List.Perm (toggleNote step pitch (toggleNote step pitch l)) l := by
  induction l with
  | nil =>
    have h1 : toggleNote step pitch ([] : List Note) = [defaultNote step pitch] := rfl
    rw [h1, toggleNote_cons]
    simp [defaultNote]
  | cons x xs ih =>
    by_cases hx : (x.step == step && x.pitch == pitch) = true
    · have hxs : x.step = step ∧ x.pitch = pitch := by
        simp only [Bool.and_eq_true, beq_iff_eq] at hx; exact hx
      have hxd : x = defaultNote step pitch :=
        hdef x (List.mem_cons_self x xs) hxs.1 hxs.2
      have hnone : ∀ n ∈ xs, ¬(n.step = step ∧ n.pitch = pitch) := by
        intro n hn hcontra
        have hpair := (List.pairwise_cons.mp huniq).1 n hn
        exact hpair ⟨hxs.1.trans hcontra.1.symm, hxs.2.trans hcontra.2.symm⟩
      rw [toggleNote_cons, if_pos hx, toggleNote_no_match step pitch xs hnone, hxd]
      exact List.perm_append_comm
    · rw [toggleNote_cons, if_neg hx, toggleNote_cons, if_neg hx]
      exact List.Perm.cons x (ih (List.pairwise_cons.mp huniq).2
        (fun n hn => hdef n (List.mem_cons_of_mem x hn)))

/-- Witness for claim C5 (amended form): toggling `(3, 5)` twice on a
two-note pattern whose `(3, 5)` note has default fields gives back the same
note set. -/
theorem claim_C5_toggle_toggle_perm_witness :
    List.Perm
      (toggleNote 3 5 (toggleNote 3 5 [defaultNote 3 5, defaultNote 4 6]))
      [defaultNote 3 5, defaultNote 4 6] :=
  claim_C5_toggle_toggle_perm 3 5 [defaultNote 3 5, defaultNote 4 6]
    (by decide) (by decide)

/-- Counterexample for claim C5 as stated: a note at `(0, 0)` with velocity
80, length 2 and accent set is removed by the first toggle, but the second
toggle inserts a default note (velocity 100, length 1, no accent), so the
original note set is not restored — not even up to order. -/
theorem claim_C5_counterexample :
    toggleNote 0 0 (toggleNote 0 0
        [{ step := 0, pitch := 0, velocity := 80, length := 2, accent := true }]) =
      [defaultNote 0 0] ∧
    ¬ List.Perm
        (toggleNote 0 0 (toggleNote 0 0
          [{ step := 0, pitch := 0, velocity := 80, length := 2, accent := true }]))
        [{ step := 0, pitch := 0, velocity := 80, length := 2, accent := true }] := by
  exact ⟨rfl, by decide⟩

/-- Claim C1 is falsified by the code: from the initial empty pattern, after
the single mutating operation `toggleNote(0, 0)`, undo does restore the
pre-operation empty set, but redo then yields the empty set again instead of
the post-operation set `[defaultNote 0 0]`; and after a second operation
`toggleNote(1, 0)`, undo yields the empty set instead of the pre-operation
set `[defaultNote 0 0]`. The history stores only pre-mutation snapshots, so
`undo` (which reads `history[index - 1]`) jumps one state too far back and
`redo` can never reproduce a post-operation state. -/
theorem claim_C1_undo_redo_divergence :
    (undo (setNotesWithHistory (toggleNote 0 0) initPatternState)).notes = [] ∧
    (setNotesWithHistory (toggleNote 0 0) initPatternState).notes = [defaultNote 0 0] ∧
    (redo (undo (setNotesWithHistory (toggleNote 0 0) initPatternState))).notes = [] ∧
    (redo (undo (setNotesWithHistory (toggleNote 0 0) initPatternState))).notes ≠
      (setNotesWithHistory (toggleNote 0 0) initPatternState).notes ∧
    (undo (setNotesWithHistory (toggleNote 1 0)
        (setNotesWithHistory (toggleNote 0 0) initPatternState))).notes = [] := by
  refine ⟨rfl, by decide, rfl, by decide, by decide⟩

/-- The two per-note rotations are mutually inverse on every note. -/
theorem nudgeRightNote_nudgeLeftNote (startStep endStep : Int) (n : Note) :
    nudgeRightNote startStep endStep (nudgeLeftNote startStep endStep n) = n := by
  obtain ⟨st, p, vel, len, acc⟩ := n
  simp only [nudgeLeftNote, nudgeRightNote]
  by_cases hin : startStep ≤ st ∧ st < endStep
  · rw [if_pos hin]
    by_cases hwrap : st - 1 < startStep
    · simp only [hwrap, if_true]
      rw [if_pos (by constructor <;> omega)]
      simp only [if_pos (by omega : endStep ≤ endStep - 1 + 1)]
      have : startStep = st := by omega
      rw [this]
    · simp only [hwrap, if_false]
      rw [if_pos (by constructor <;> omega)]
      simp only [if_neg (by omega : ¬ endStep ≤ st - 1 + 1)]
      have : st - 1 + 1 = st := by omega
      rw [this]
  · rw [if_neg hin, if_neg hin]

/-- The two per-note rotations are mutually inverse on every note, in the
other order. -/
theorem nudgeLeftNote_nudgeRightNote (startStep endStep : Int) (n : Note) :
    nudgeLeftNote startStep endStep (nudgeRightNote startStep endStep n) = n := by
  obtain ⟨st, p, vel, len, acc⟩ := n
  simp only [nudgeLeftNote, nudgeRightNote]
  by_cases hin : startStep ≤ st ∧ st < endStep
  · rw [if_pos hin]
    by_cases hwrap : endStep ≤ st + 1
    · simp only [hwrap, if_true]
      rw [if_pos (by constructor <;> omega)]
      simp only [if_pos (by omega : startStep - 1 < startStep)]
      have : endStep - 1 = st := by omega
      rw [this]
    · simp only [hwrap, if_false]
      rw [if_pos (by constructor <;> omega)]
      simp only [if_neg (by omega : ¬ st + 1 - 1 < startStep)]
      have : st + 1 - 1 = st := by omega
      rw [this]
  · rw [if_neg hin, if_neg hin]

/-- Claim C10: on a non-empty selection, nudging left then right (and right
then left) restores the exact original note list; each nudge rotates selected
notes by one step, wrapping at the selection boundary, and leaves notes
outside the selection untouched. -/
theorem claim_C10_nudge_roundtrip (selectionStart selectionEnd : Int)
    (h : selectionStart < selectionEnd) (notes : List Note) :
    nudgeRight selectionStart selectionEnd
        (nudgeLeft selectionStart selectionEnd notes) = notes ∧
    nudgeLeft selectionStart selectionEnd
        (nudgeRight selectionStart selectionEnd notes) = notes := by
  have hlen : ¬ (selectionEnd * STEPS_PER_BAR - selectionStart * STEPS_PER_BAR ≤ 0) := by
    simp only [STEPS_PER_BAR]
    omega
  have hlt : selectionStart * STEPS_PER_BAR < selectionEnd * STEPS_PER_BAR := by
    simp only [STEPS_PER_BAR]
    omega
  constructor
  · simp only [nudgeLeft, nudgeRight, getSelectionSteps, hlen, if_false, List.map_map]
    rw [show (nudgeRightNote (selectionStart * STEPS_PER_BAR) (selectionEnd * STEPS_PER_BAR) ∘
        nudgeLeftNote (selectionStart * STEPS_PER_BAR) (selectionEnd * STEPS_PER_BAR)) = id from
      funext (fun n => nudgeRightNote_nudgeLeftNote _ _ n)]
    exact List.map_id notes
  · simp only [nudgeLeft, nudgeRight, getSelectionSteps, hlen, if_false, List.map_map]
    rw [show (nudgeLeftNote (selectionStart * STEPS_PER_BAR) (selectionEnd * STEPS_PER_BAR) ∘
        nudgeRightNote (selectionStart * STEPS_PER_BAR) (selectionEnd * STEPS_PER_BAR)) = id from
      funext (fun n => nudgeLeftNote_nudgeRightNote _ _ n)]
    exact List.map_id notes

/-- Witness for claim C10: on the one-bar selection `[0, 1)` a pattern with a
note at the selection edge and one outside comes back unchanged. -/
theorem claim_C10_nudge_roundtrip_witness :
    nudgeRight 0 1 (nudgeLeft 0 1 [defaultNote 0 3, defaultNote 15 4, defaultNote 20 5]) =
        [defaultNote 0 3, defaultNote 15 4, defaultNote 20 5] ∧
    nudgeLeft 0 1 (nudgeRight 0 1 [defaultNote 0 3, defaultNote 15 4, defaultNote 20 5]) =
        [defaultNote 0 3, defaultNote 15 4, defaultNote 20 5] :=
  claim_C10_nudge_roundtrip 0 1 (by decide) [defaultNote 0 3, defaultNote 15 4, defaultNote 20 5]

/-- Claim C8 (amended): on note sets whose pitches all lie inside the legal
range `[0, scaleDegreeCount*4 - 1]`, `transposeUp` and `transposeDown`
behave exactly as the claim describes: selected notes shift by plus/minus one
degree, selected notes whose shifted pitch would leave the range stay
unchanged, and unselected notes stay unchanged. (On a note whose pitch is
already above the range, `transposeDown` still decrements — see the
counterexample — so the range hypothesis is needed.) -/
theorem claim_C8_transpose_bounds (scale : Scale) (selectionStart selectionEnd : Int)
    (notes : List Note)
    (hrange : ∀ n ∈ notes, 0 ≤ n.pitch ∧ n.pitch ≤ (scale.intervals.length : Int) * 4 - 1) :
    transposeUp scale selectionStart selectionEnd notes =
      notes.map (claimTransposeNote 1 ((scale.intervals.length : Int) * 4 - 1)
        (selectionStart * STEPS_PER_BAR) (selectionEnd * STEPS_PER_BAR)) ∧
    transposeDown selectionStart selectionEnd notes =
      notes.map (claimTransposeNote (-1) ((scale.intervals.length : Int) * 4 - 1)
        (selectionStart * STEPS_PER_BAR) (selectionEnd * STEPS_PER_BAR)) := by
  constructor
  · simp only [transposeUp, getSelectionSteps]
    apply List.map_congr_left
    intro n hn
    obtain ⟨hp0, hpmax⟩ := hrange n hn
    obtain ⟨st, p, vel, len, acc⟩ := n
    simp only [transposeUpNote, claimTransposeNote] at *
    by_cases hin : selectionStart * STEPS_PER_BAR ≤ st ∧ st < selectionEnd * STEPS_PER_BAR
    · rw [if_pos hin]
      by_cases hup : p + 1 ≤ (scale.intervals.length : Int) * 4 - 1
      · rw [if_pos hup, if_pos ⟨hin.1, hin.2, by omega, hup⟩]
      · rw [if_neg hup, if_neg (by intro hcon; exact hup hcon.2.2.2)]
    · rw [if_neg hin, if_neg (by intro hcon; exact hin ⟨hcon.1, hcon.2.1⟩)]
  · simp only [transposeDown, getSelectionSteps]
    apply List.map_congr_left
    intro n hn
    obtain ⟨hp0, hpmax⟩ := hrange n hn
    obtain ⟨st, p, vel, len, acc⟩ := n
    simp only [transposeDownNote, claimTransposeNote] at *
    by_cases hin : selectionStart * STEPS_PER_BAR ≤ st ∧ st < selectionEnd * STEPS_PER_BAR
    · rw [if_pos hin]
      by_cases hdown : (0 : Int) ≤ p + -1
      · rw [if_pos (by omega : (0:Int) ≤ p - 1), if_pos ⟨hin.1, hin.2, hdown, by omega⟩]
        have : p - 1 = p + -1 := by ring
        rw [this]
      · rw [if_neg (by omega : ¬ (0:Int) ≤ p - 1), if_neg (by intro hcon; exact hdown hcon.2.2.1)]
    · rw [if_neg hin, if_neg (by intro hcon; exact hin ⟨hcon.1, hcon.2.1⟩)]

/-- Witness for claim C8 (amended form): a three-note harmonic-minor pattern
(maxPitch 27) with a note at the top of the range, one in the middle of the
selection and one outside the selection. -/
theorem claim_C8_transpose_bounds_witness :
    transposeUp Scales.harmonicMinor 0 1
        [defaultNote 0 27, defaultNote 3 5, defaultNote 100 5] =
      [defaultNote 0 27, defaultNote 3 6, defaultNote 100 5] ∧
    transposeDown 0 1 [defaultNote 0 27, defaultNote 3 5, defaultNote 100 5] =
      [defaultNote 0 26, defaultNote 3 4, defaultNote 100 5] := by
  have h := claim_C8_transpose_bounds Scales.harmonicMinor 0 1
    [defaultNote 0 27, defaultNote 3 5, defaultNote 100 5] (by decide)
  refine ⟨h.1.trans (by decide), h.2.trans (by decide)⟩

/-- Counterexample for claim C8 as stated: with the harmonic-minor scale the
bound is `7 * 4 - 1 = 27`. A selected note of pitch 29 shifted down lands on
28, which leaves `[0, 27]`, so by the claim the note should stay entirely
unchanged; the code only checks `0 ≤ newPitch` and moves it to 28. -/
theorem claim_C8_counterexample :
    (Scales.harmonicMinor.intervals.length : Int) * 4 - 1 = 27 ∧
    transposeDown 0 1 [defaultNote 0 29] = [defaultNote 0 28] ∧
    [defaultNote 0 28] ≠ [defaultNote 0 29] := by
  refine ⟨by decide, by decide, by decide⟩

/-- Appending a note that clashes with nothing in the accumulator preserves
the uniqueness invariant. -/
theorem uniqueNotes_append_single (acc : List Note) (m : Note)
    (hacc : UniqueNotes acc)
    (hnew : ∀ e ∈ acc, ¬(e.step = m.step ∧ e.pitch = m.pitch)) :
    UniqueNotes (acc ++ [m]) := by
  unfold UniqueNotes at *
  rw [List.pairwise_append]
  exact ⟨hacc, List.pairwise_singleton _ m, fun a ha b hb => by
    rw [List.mem_singleton] at hb
    subst hb
    exact hnew a ha⟩

/-- One `forEach` pass of the loop fill preserves the uniqueness invariant:
every insertion is guarded by an occupancy check against the accumulator. -/
theorem uniqueNotes_loopAppend (currentOffset : Int) (selectedNotes : List Note) :
    ∀ acc, UniqueNotes acc → UniqueNotes (loopAppend currentOffset selectedNotes acc) := by
  induction selectedNotes with
  | nil => intro acc hacc; exact hacc
  | cons n ns ih =>
    intro acc hacc
    show UniqueNotes (loopAppend currentOffset ns _)
    by_cases hlt : n.step + currentOffset < TOTAL_STEPS
    · by_cases hocc : acc.any (fun existing =>
        existing.step == n.step + currentOffset && existing.pitch == n.pitch) = true
      · simp only [loopAppend, List.foldl_cons, hlt, if_true, hocc, if_pos trivial]
        exact ih acc hacc
      · have hnew : ∀ e ∈ acc,
            ¬(e.step = n.step + currentOffset ∧ e.pitch = n.pitch) := by
          intro e he hcon
          apply hocc
          rw [List.any_eq_true]
          exact ⟨e, he, by simp [hcon.1, hcon.2]⟩
        simp only [loopAppend, List.foldl_cons, hlt, if_true]
        rw [if_neg hocc]
        exact ih _ (uniqueNotes_append_single acc _ hacc hnew)
    · simp only [loopAppend, List.foldl_cons, hlt, if_false]
      exact ih acc hacc

/-- The fuelled `while` loop preserves the uniqueness invariant. -/
theorem uniqueNotes_loopFillWhile (selectedNotes : List Note) :
    ∀ (fuel : Nat) (startStep selectionLength currentOffset : Int) (acc : List Note),
      UniqueNotes acc →
      UniqueNotes (loopFillWhile fuel startStep selectionLength currentOffset
        selectedNotes acc) := by
  intro fuel
  induction fuel with
  | zero => intro _ _ _ acc hacc; exact hacc
  | succ fuel ih =>
    intro startStep selectionLength currentOffset acc hacc
    simp only [loopFillWhile]
    by_cases hcond : startStep + currentOffset < TOTAL_STEPS
    · rw [if_pos hcond]
      exact ih _ _ _ _ (uniqueNotes_loopAppend currentOffset selectedNotes acc hacc)
    · rw [if_neg hcond]
      exact hacc

/-- Claim C2 (amended): `loopSelection` preserves the uniqueness invariant —
every insertion it makes is guarded by an occupancy check — but
`duplicateSelection` does not (see the counterexample), because it appends
shifted copies without checking for notes already occupying the target
range. -/
theorem claim_C2_loopSelection_unique (selectionStart selectionEnd : Int)
    (notes : List Note) (huniq : UniqueNotes notes) :
    UniqueNotes (loopSelection selectionStart selectionEnd notes) := by
  unfold loopSelection
  by_cases hsel : (getSelectionSteps selectionStart selectionEnd).2 -
      (getSelectionSteps selectionStart selectionEnd).1 ≤ 0
  · simpa [hsel] using huniq
  · simp only [hsel, if_false]
    exact uniqueNotes_loopFillWhile _ 256 _ _ _ notes huniq

/-- Witness for claim C2 (amended form): looping a one-bar selection holding
`(0, 0)` over a pattern that already holds `(16, 0)` keeps the note set free
of duplicates. -/
theorem claim_C2_loopSelection_unique_witness :
    UniqueNotes (loopSelection 0 1 [defaultNote 0 0, defaultNote 16 0]) :=
  claim_C2_loopSelection_unique 0 1 [defaultNote 0 0, defaultNote 16 0] (by decide)

/-- Counterexample for claim C2 as stated: duplicating the one-bar selection
`[0, 1)` of a pattern holding `(0, 0)` and `(16, 0)` appends a copy of
`(0, 0)` at step 16, colliding with the existing `(16, 0)` note — the result
violates the uniqueness invariant although the input satisfied it. -/
theorem claim_C2_counterexample :
    UniqueNotes [defaultNote 0 0, defaultNote 16 0] ∧
    duplicateSelection 0 1 [defaultNote 0 0, defaultNote 16 0] =
      [defaultNote 0 0, defaultNote 16 0, defaultNote 16 0] ∧
    ¬ UniqueNotes (duplicateSelection 0 1 [defaultNote 0 0, defaultNote 16 0]) := by
  refine ⟨by decide, by decide, by decide⟩

/-- The hook's inlined old-scale pitch computation agrees with the scale
engine's `scaleDegreeToMidi`. -/
theorem setScaleNote_midi (oldScale newScale : Scale) (rootNote : Int) (n : Note) :
    setScaleNote oldScale newScale rootNote n =
      { n with
          pitch :=
            midiToNearestScaleDegree (scaleDegreeToMidi n.pitch oldScale rootNote)
              newScale rootNote } := rfl

/-- Claim C7 (amended): re-quantizing under the unchanged scale (
`setScale` called with the already-active scale, root unchanged) is lossless —
every note keeps its exact pitch, hence its exact absolute MIDI pitch. The
claimed one-scale-step tolerance for a round trip through a second scale does
not hold in general (see the counterexample). -/
theorem claim_C7_setScale_same_lossless (s : Scale) (hs : s ∈ allScales)
    (rootNote : Int) (notes : List Note) (hp : ∀ n ∈ notes, 0 ≤ n.pitch) :
    setScaleNotes s s rootNote notes = notes := by
  unfold setScaleNotes
  have hid : ∀ n ∈ notes, setScaleNote s s rootNote n = n := by
    intro n hn
    rw [setScaleNote_midi]
    rw [roundtrip_of_goodScale s (allScales_good s hs) rootNote n.pitch (hp n hn)]
  calc notes.map (setScaleNote s s rootNote)
      = notes.map id := List.map_congr_left hid
    _ = notes := List.map_id notes

/-- Witness for claim C7 (amended form): re-quantizing a two-note pattern
under the active harmonic-minor scale at root 45 returns it exactly. -/
theorem claim_C7_setScale_same_lossless_witness :
    setScaleNotes Scales.harmonicMinor Scales.harmonicMinor 45
        [defaultNote 0 0, defaultNote 5 13] = [defaultNote 0 0, defaultNote 5 13] :=
  claim_C7_setScale_same_lossless Scales.harmonicMinor (by decide) 45
    [defaultNote 0 0, defaultNote 5 13] (by decide)

/-- Counterexample for claim C7 as stated: under the chromatic scale at root
60 a note of degree 11 sits at MIDI 71. Switching to pentatonic major maps it
to degree 4 (MIDI 69: the scan rounds 11 semitones down to interval 9), and
switching back to chromatic yields degree 9, MIDI 69. The absolute pitch
moved by 2 semitones, which is 2 chromatic scale steps — every adjacent
chromatic interval step is exactly 1 — so the round trip through a second
scale is NOT within one scale step of the original scale. -/
theorem claim_C7_counterexample :
    setScaleNotes Scales.chromatic Scales.pentatonicMajor 60 [defaultNote 0 11] =
      [defaultNote 0 4] ∧
    setScaleNotes Scales.pentatonicMajor Scales.chromatic 60 [defaultNote 0 4] =
      [defaultNote 0 9] ∧
    scaleDegreeToMidi 11 Scales.chromatic 60 = 71 ∧
    scaleDegreeToMidi 9 Scales.chromatic 60 = 69 ∧
    List.Chain' (fun a b => b - a = 1) Scales.chromatic.intervals ∧
    (71 - 69 : Int).natAbs = 2 := by
  refine ⟨by decide, by decide, by decide, by decide, ?_, by decide⟩
  norm_num [Scales.chromatic, List.chain'_cons]

/-- Claim C3 (amended): `triggerFilterSweep` does not guard on `sweepActive`.
A second trigger while a sweep is active is not a no-op: it restarts the
sweep — the filter frequency snaps back to the low bound, two fresh ramps
are appended to the schedule, and the UI timer restarts (the flag itself
stays set). -/
theorem claim_C3_retrigger_restarts (tempo : ℚ) (s : EngineState)
    (hpresent : s.filterPresent = true) (hactive : s.sweepActive = true) :
    (triggerFilterSweep tempo s).sweepActive = true ∧
    (triggerFilterSweep tempo s).filterFreq = sweepLowFreq ∧
    (triggerFilterSweep tempo s).filterFreqUI = sweepLowFreq ∧
    (triggerFilterSweep tempo s).filterType = FilterKind.lowpass ∧
    (triggerFilterSweep tempo s).ramps = s.ramps ++
      [{ target := sweepHighFreq, duration := halfDuration tempo, startAt := 0 },
       { target := sweepLowFreq, duration := halfDuration tempo,
         startAt := halfDuration tempo }] := by
  simp [triggerFilterSweep, hpresent]

/-- Witness for claim C3 (amended form): retriggering at tempo 120 from a
mid-sweep state with the filter at 5000 Hz. -/
theorem claim_C3_retrigger_restarts_witness :
    (triggerFilterSweep 120
        { filterPresent := true, filterEnabled := true,
          filterType := FilterKind.lowpass, filterFreq := 5000,
          filterFreqUI := 5000, sweepActive := true,
          ramps := [{ target := sweepHighFreq, duration := 16, startAt := 0 },
                    { target := sweepLowFreq, duration := 16, startAt := 16 }],
          uiTimerPending := true }).filterFreq = sweepLowFreq :=
  (claim_C3_retrigger_restarts 120 _ rfl rfl).2.1

/-- Counterexample for claim C3 as stated: triggering while a sweep is active
(mid-sweep, filter at 5000 Hz) changes the engine state — the filter
frequency is reset to 200 Hz and two further ramps are scheduled — so the
second trigger is not a no-op leaving all state unchanged. -/
theorem claim_C3_counterexample :
    triggerFilterSweep 120
        { filterPresent := true, filterEnabled := true,
          filterType := FilterKind.lowpass, filterFreq := 5000,
          filterFreqUI := 5000, sweepActive := true,
          ramps := [{ target := sweepHighFreq, duration := 16, startAt := 0 },
                    { target := sweepLowFreq, duration := 16, startAt := 16 }],
          uiTimerPending := true } ≠
      { filterPresent := true, filterEnabled := true,
        filterType := FilterKind.lowpass, filterFreq := 5000,
        filterFreqUI := 5000, sweepActive := true,
        ramps := [{ target := sweepHighFreq, duration := 16, startAt := 0 },
                  { target := sweepLowFreq, duration := 16, startAt := 16 }],
        uiTimerPending := true } := by
  decide

/-- Claim C9: a sweep triggered at tempo `t` ramps up over exactly
`32 * (60 / t)` seconds and down over the same half-duration starting when
the first ends; at tempo 120 the half-duration is 16 s, the two ramp phases
span exactly 32 s, and the UI countdown that clears `sweepActive` also ends
exactly at 32 s (640 steps of 50 ms). -/
theorem claim_C9_sweep_duration (tempo : ℚ) (s : EngineState)
    (hpresent : s.filterPresent = true) :
    (triggerFilterSweep tempo s).ramps = s.ramps ++
      [{ target := sweepHighFreq, duration := 32 * (60 / tempo), startAt := 0 },
       { target := sweepLowFreq, duration := 32 * (60 / tempo),
         startAt := 32 * (60 / tempo) }] ∧
    halfDuration 120 = 16 ∧
    halfDuration 120 + halfDuration 120 = 32 ∧
    sweepTotalSteps 120 = 640 ∧
    sweepUIClearSeconds 120 = 32 := by
  refine ⟨?_, by norm_num [halfDuration], by norm_num [halfDuration], ?_, ?_⟩
  · simp [triggerFilterSweep, hpresent, halfDuration]
  · norm_num [sweepTotalSteps, halfDuration]
  · norm_num [sweepUIClearSeconds, sweepTotalSteps, halfDuration]

/-- Witness for claim C9: the concrete engine state before any sweep, at
tempo 120. -/
theorem claim_C9_sweep_duration_witness :
    (triggerFilterSweep 120
        { filterPresent := true, filterEnabled := false,
          filterType := FilterKind.highpass, filterFreq := 1000,
          filterFreqUI := 1000, sweepActive := false, ramps := [],
          uiTimerPending := false }).ramps =
      [{ target := sweepHighFreq, duration := 32 * (60 / 120), startAt := 0 },
       { target := sweepLowFreq, duration := 32 * (60 / 120),
         startAt := 32 * (60 / 120) }] ∧
    sweepTotalSteps 120 = 640 := by
  have h := claim_C9_sweep_duration 120
    { filterPresent := true, filterEnabled := false,
      filterType := FilterKind.highpass, filterFreq := 1000,
      filterFreqUI := 1000, sweepActive := false, ramps := [],
      uiTimerPending := false } rfl
  exact ⟨h.1, h.2.2.2.1⟩

/-- Claim C4 is falsified by the code: the tick callback requests the Tone.js
duration string built from `note.length * 16`, so a note of length 1 gets
`16n` (one sixteenth — correct) but a note of length 2 gets `32n`, HALF a
sixteenth instead of the claimed two sixteenths. At tempo 120 a length-2 note
sounds 1/16 s where the claim (and the `Note` type's own documentation,
`2 = 1/8`) requires 1/4 s: longer lengths make notes shorter. -/
theorem claim_C4_duration_divergence :
    tickNoteDurationSeconds 1 120 = sixteenthNoteSeconds 120 ∧
    tickNoteDurationSeconds 2 120 = 1 / 16 ∧
    2 * sixteenthNoteSeconds 120 = 1 / 4 ∧
    tickNoteDurationSeconds 2 120 ≠ 2 * sixteenthNoteSeconds 120 := by
  refine ⟨?_, ?_, ?_, ?_⟩ <;>
    norm_num [tickNoteDurationSeconds, toneTimeSeconds, sixteenthNoteSeconds]
